/-
Verification of the unified persistent cache manager (`useCacheManager`):
a shallow embedding of its data model and of the operations
`get` / `set` / `has` / `remove` / `clear` / `prune` / `optimize` /
`getStats` / `setMultiple`, together with theorems settling the spec's
claims about TTL expiry, TTL precedence, eviction, the `has`/`get`
expiry gap, `clear(type)` scoping and capacity bounds.

Modelling conventions:
  * The event-loop is single-threaded and every awaited step completes
    before the caller resumes, so each operation is a pure function from
    a `CacheState` to a `CacheState` (plus its return value).
  * `Date.now()` is an explicit `now : Int` argument.
  * JS `Map` is an association list in insertion order: `Map.set` on an
    existing key replaces the value in place, otherwise appends.
    `Map.delete` removes the unique binding with that key (on the
    well-formed states the theorems quantify over, keys are unique, so
    it is modelled by `List.filter`).  JS `Set` is a list without
    duplicates, `add` appending when absent.
  * `AsyncStorage` (the durable store) is the `disk` association list,
    holding exactly the entries written under this cache's key prefix.
  * JS numbers are modelled as `Int` (timestamps, TTLs), `Nat` (sizes,
    hit counters) and `ℚ` (the fractional MB arithmetic of
    `optimize`/`getStats`); `x || y` on numbers falls through on `0`.
  * `calculateSize` serializes the payload and measures it; the payload
    type is abstract here, so the byte measure is an explicit
    `sz : α → Nat` argument.
-/
import Mathlib

set_option allowUnsafeReducibility true in
attribute [semireducible] Rat.add Rat.sub Rat.mul Rat.inv

namespace CacheManager

/-- Content types of cache entries (the `CacheType` union). -/
inductive CacheType : Type
  | html
  | api
  | product
  | category
  | image
  | script
  | style
  | resource
deriving DecidableEq, Repr

/-- Per-type default TTLs in milliseconds (`CACHE_TTL_BY_TYPE`). -/
def CACHE_TTL_BY_TYPE : CacheType → Int
  | .html => 15 * 60 * 1000
  | .api => 10 * 60 * 1000
  | .product => 30 * 60 * 1000
  | .category => 60 * 60 * 1000
  | .image => 24 * 60 * 60 * 1000
  | .script => 24 * 60 * 60 * 1000
  | .style => 24 * 60 * 60 * 1000
  | .resource => 60 * 60 * 1000

/-- A cache entry (`CacheEntry<T>`), with payload type `α`. -/
structure CacheEntry (α : Type) where
  data : α
  timestamp : Int
  size : Nat
  type : CacheType
  expiresAt : Int
  hits : Nat
deriving DecidableEq

/-- The cache configuration (`CacheConfig`).  `maxSize` is in MB. -/
structure CacheConfig where
  enabled : Bool
  maxSize : Nat
  maxEntries : Nat
  defaultTTL : Int
  persistToDisk : Bool
  useCompression : Bool
deriving DecidableEq

/-- `DEFAULT_CONFIG`. -/
def DEFAULT_CONFIG : CacheConfig :=
  { enabled := true, maxSize := 200, maxEntries := 1000,
    defaultTTL := 30 * 60 * 1000, persistToDisk := true,
    useCompression := false }

/-- The mutable state owned by the hook: the in-memory `Map`
(`memoryCache`), the key `Set` (`cacheIndex`), the durable store's
entries under this cache's prefix (`disk`), and the two global
counters. -/
structure CacheState (α : Type) where
  memoryCache : List (String × CacheEntry α)
  cacheIndex : List String
  disk : List (String × CacheEntry α)
  totalHits : Nat
  totalMisses : Nat
deriving DecidableEq

/-- The record returned by `getStats`; `byType t` is the
`{count, size}` pair for type `t`. -/
structure CacheStats where
  totalEntries : Nat
  totalSize : ℚ
  hitRate : ℚ
  byType : CacheType → Nat × Nat
  oldestEntry : Int
  newestEntry : Int

/-- `Map.get` on an association list (first binding wins). -/
def lookupKV {α : Type} : List (String × CacheEntry α) → String → Option (CacheEntry α)
  | [], _ => none
  | (k', e) :: rest, k => if k' = k then some e else lookupKV rest k

/-- `Map.set`: replace in place when the key is present, else append. -/
def mapSet {α : Type} : List (String × CacheEntry α) → String → CacheEntry α → List (String × CacheEntry α)
  | [], k, e => [(k, e)]
  | (k', e') :: rest, k, e =>
    if k' = k then (k, e) :: rest else (k', e') :: mapSet rest k e

/-- `Set.add`: append when absent. -/
def setAdd (l : List String) (k : String) : List String :=
  if k ∈ l then l else l ++ [k]

/-- Aggregate byte size of a list of entries. -/
def totalBytes {α : Type} (l : List (String × CacheEntry α)) : Nat :=
  (l.map (fun p => p.2.size)).sum

/-- Well-formedness of a `Map` image: keys are pairwise distinct. -/
def nodupKeys {α : Type} (l : List (String × CacheEntry α)) : Prop :=
  (l.map Prod.fst).Nodup

instance {α : Type} (l : List (String × CacheEntry α)) : Decidable (nodupKeys l) := by
  unfold nodupKeys
  infer_instance

/-- Every entry of the list satisfies `timestamp ≤ expiresAt`. -/
def entriesWF {α : Type} (l : List (String × CacheEntry α)) : Prop :=
  ∀ p ∈ l, p.2.timestamp ≤ p.2.expiresAt

instance {α : Type} (l : List (String × CacheEntry α)) : Decidable (entriesWF l) := by
  unfold entriesWF
  infer_instance

/-- The `expiresAt ≥ timestamp` invariant, over memory and disk. -/
def stateWF {α : Type} (s : CacheState α) : Prop :=
  entriesWF s.memoryCache ∧ entriesWF s.disk

instance {α : Type} (s : CacheState α) : Decidable (stateWF s) := by
  unfold stateWF
  infer_instance

/-- `remove(key)`: delete from the memory map and the key set, and,
when `persistToDisk`, from the durable store.  Always resolves `true`. -/
def remove (cfg : CacheConfig) {α : Type} (s : CacheState α) (key : String) :
    CacheState α × Bool :=
  ({ s with
      memoryCache := s.memoryCache.filter (fun p => p.1 ≠ key),
      cacheIndex := s.cacheIndex.filter (fun k => k ≠ key),
      disk := if cfg.persistToDisk then s.disk.filter (fun p => p.1 ≠ key) else s.disk },
    true)

/-- Sequentially `remove` each key of a list (the `for … await remove`
loops of `clear`, `prune` and `optimize`). -/
def removeList (cfg : CacheConfig) {α : Type} : CacheState α → List String → CacheState α
  | s, [] => s
  | s, k :: ks => removeList cfg (remove cfg s k).1 ks

/-- `get(key, type?)`.  The `type` argument is declared but unused by
the source.  Returns the new state and the payload (or `null`). -/
def get (cfg : CacheConfig) {α : Type} (s : CacheState α) (now : Int) (key : String)
    (type? : Option CacheType) : CacheState α × Option α :=
  if cfg.enabled = false then (s, none)
  else
    match lookupKV s.memoryCache key with
    | some entry =>
      if now > entry.expiresAt then
        let s' := (remove cfg s key).1
        ({ s' with totalMisses := s'.totalMisses + 1 }, none)
      else
        ({ s with
            memoryCache := mapSet s.memoryCache key { entry with hits := entry.hits + 1 },
            totalHits := s.totalHits + 1 },
          some entry.data)
    | none =>
      if cfg.persistToDisk = true ∧ key ∈ s.cacheIndex then
        match lookupKV s.disk key with
        | some entry =>
          if now > entry.expiresAt then
            let s' := (remove cfg s key).1
            ({ s' with totalMisses := s'.totalMisses + 1 }, none)
          else
            ({ s with
                memoryCache := mapSet s.memoryCache key { entry with hits := entry.hits + 1 },
                totalHits := s.totalHits + 1 },
              some entry.data)
        | none => ({ s with totalMisses := s.totalMisses + 1 }, none)
      else ({ s with totalMisses := s.totalMisses + 1 }, none)

/-- The TTL chain `customTTL || CACHE_TTL_BY_TYPE[type] || config.defaultTTL`:
JS `||` on numbers falls through on `0` (and on an omitted argument). -/
def ttlOf (customTTL : Option Int) (type : CacheType) (defaultTTL : Int) : Int :=
  match customTTL with
  | some c =>
    if c = 0 then
      (if CACHE_TTL_BY_TYPE type = 0 then defaultTTL else CACHE_TTL_BY_TYPE type)
    else c
  | none =>
    if CACHE_TTL_BY_TYPE type = 0 then defaultTTL else CACHE_TTL_BY_TYPE type

/-- `getStats()`: one scan of the memory map.  `oldestEntry` starts at
`Date.now()` and `newestEntry` at `0`. -/
def getStats {α : Type} (s : CacheState α) (now : Int) : CacheStats :=
  { totalEntries := s.memoryCache.length
    totalSize :=
      ((s.memoryCache.foldl (fun acc p => acc + p.2.size) 0 : Nat) : ℚ) / (1024 * 1024)
    hitRate :=
      if 0 < s.totalHits + s.totalMisses then
        ((s.totalHits : ℚ) / ((s.totalHits : ℚ) + (s.totalMisses : ℚ))) * 100
      else 0
    byType := s.memoryCache.foldl
      (fun acc p t =>
        if t = p.2.type then ((acc t).1 + 1, (acc t).2 + p.2.size) else acc t)
      (fun _ => (0, 0))
    oldestEntry :=
      s.memoryCache.foldl (fun acc p => if p.2.timestamp < acc then p.2.timestamp else acc) now
    newestEntry :=
      s.memoryCache.foldl (fun acc p => if p.2.timestamp > acc then p.2.timestamp else acc) 0 }

/-- `Array.from(map.entries()).sort((a, b) => a[1].hits - b[1].hits)`:
a stable ascending sort on `hits` (JS `sort` is stable). -/
def sortByHits {α : Type} (l : List (String × CacheEntry α)) : List (String × CacheEntry α) :=
  List.insertionSort (fun a b => a.2.hits ≤ b.2.hits) l

/-- The size-pass loop of `optimize`: `T` is the `stats.totalSize`
snapshot (MB), `removed` the bytes removed so far; stop as soon as
`T - removed / 2²⁰ ≤ target`, else remove the next (least-hit) entry. -/
def sizeLoop (cfg : CacheConfig) {α : Type} (T target : ℚ) :
    List (String × CacheEntry α) → CacheState α → Nat → CacheState α
  | [], s, _ => s
  | (k, e) :: rest, s, removed =>
    if T - (removed : ℚ) / (1024 * 1024) ≤ target then s
    else sizeLoop cfg T target rest (remove cfg s k).1 (removed + e.size)

/-- `optimize()`: a size pass (evict least-hit entries until the size
snapshot drops to `0.8 × maxSize`) followed by a count pass (evict the
`size - ⌊0.8 × maxEntries⌋` least-hit entries when over `maxEntries`). -/
def optimize (cfg : CacheConfig) {α : Type} (now : Int) (s : CacheState α) : CacheState α :=
  let stats := getStats s now
  let s1 :=
    if (cfg.maxSize : ℚ) < stats.totalSize then
      sizeLoop cfg stats.totalSize ((cfg.maxSize : ℚ) * (4 / 5)) (sortByHits s.memoryCache) s 0
    else s
  if cfg.maxEntries < s1.memoryCache.length then
    let entriesToRemove := s1.memoryCache.length - Nat.floor ((cfg.maxEntries : ℚ) * (4 / 5))
    removeList cfg s1 (((sortByHits s1.memoryCache).take entriesToRemove).map Prod.fst)
  else s1

/-- `set(key, data, type, customTTL?)`.  Builds the entry, writes it to
memory (and, when persisting, to disk and the persisted index), then
awaits `optimize()` when the memory map outgrew `maxEntries`. -/
def set (cfg : CacheConfig) {α : Type} (sz : α → Nat) (s : CacheState α) (now : Int)
    (key : String) (data : α) (type : CacheType) (customTTL : Option Int) :
    CacheState α × Bool :=
  if cfg.enabled = false then (s, false)
  else
    let size := sz data
    let ttl := ttlOf customTTL type cfg.defaultTTL
    let entry : CacheEntry α :=
      { data := data, timestamp := now, size := size, type := type,
        expiresAt := now + ttl, hits := 0 }
    let s1 : CacheState α :=
      { s with
          memoryCache := mapSet s.memoryCache key entry,
          cacheIndex := setAdd s.cacheIndex key,
          disk := if cfg.persistToDisk then mapSet s.disk key entry else s.disk }
    let s2 := if s1.memoryCache.length > cfg.maxEntries then optimize cfg now s1 else s1
    (s2, true)

/-- `set` with its `type` and `customTTL` arguments omitted: the source
declares `type: CacheType = 'resource'`, so omission means
`type = resource` and no custom TTL. -/
def setOmitType (cfg : CacheConfig) {α : Type} (sz : α → Nat) (s : CacheState α) (now : Int)
    (key : String) (data : α) : CacheState α × Bool :=
  set cfg sz s now key data CacheType.resource none

/-- `has(key)`: memory map OR key set — no expiry check, no clock. -/
def has {α : Type} (s : CacheState α) (key : String) : Bool :=
  (lookupKV s.memoryCache key).isSome || decide (key ∈ s.cacheIndex)

/-- `clear(type?)`: with a type, remove every in-memory entry of that
type; without, wipe memory, this cache's durable keys, the key set and
both counters. -/
def clear (cfg : CacheConfig) {α : Type} (s : CacheState α) (type? : Option CacheType) :
    CacheState α :=
  match type? with
  | some t =>
    removeList cfg s ((s.memoryCache.filter (fun p => p.2.type = t)).map Prod.fst)
  | none =>
    { memoryCache := [],
      cacheIndex := [],
      disk := if cfg.persistToDisk then [] else s.disk,
      totalHits := 0,
      totalMisses := 0 }

/-- `prune()`: remove every in-memory entry with `now > expiresAt`,
returning how many. -/
def prune (cfg : CacheConfig) {α : Type} (s : CacheState α) (now : Int) :
    CacheState α × Nat :=
  let expiredKeys := (s.memoryCache.filter (fun p => now > p.2.expiresAt)).map Prod.fst
  (removeList cfg s expiredKeys, expiredKeys.length)

/-- `setMultiple(entries)`: each entry written through `set`; an entry
without a type gets `set`'s default `'resource'`. -/
def setMultiple (cfg : CacheConfig) {α : Type} (sz : α → Nat) (s : CacheState α) (now : Int)
    (entries : List (String × α × Option CacheType)) : CacheState α × Bool :=
  (entries.foldl
      (fun acc p => (set cfg sz acc now p.1 p.2.1 (p.2.2.getD CacheType.resource) none).1)
      s,
    true)


/-! ### Association-list lemmas -/

theorem lookupKV_mapSet_self {α : Type} (l : List (String × CacheEntry α)) (k : String)
    (e : CacheEntry α) : lookupKV (mapSet l k e) k = some e := by
  induction l with
  | nil => simp [mapSet, lookupKV]
  | cons p rest ih =>
    by_cases h : p.1 = k
    · simp [mapSet, h, lookupKV]
    · simpa [mapSet, h, lookupKV] using ih

theorem mem_mapSet {α : Type} {l : List (String × CacheEntry α)} {k : String}
    {e : CacheEntry α} {p : String × CacheEntry α} (hp : p ∈ mapSet l k e) :
    p = (k, e) ∨ p ∈ l := by
  induction l with
  | nil => simpa [mapSet] using hp
  | cons q rest ih =>
    by_cases h : q.1 = k
    · rcases (by simpa [mapSet, h] using hp : p = (k, e) ∨ p ∈ rest) with h' | h'
      · exact Or.inl h'
      · exact Or.inr (List.mem_cons_of_mem _ h')
    · rcases (by simpa [mapSet, h] using hp : p = q ∨ p ∈ mapSet rest k e) with h' | h'
      · exact Or.inr (h' ▸ List.mem_cons_self _ _)
      · rcases ih h' with h'' | h''
        · exact Or.inl h''
        · exact Or.inr (List.mem_cons_of_mem _ h'')

theorem length_mapSet_le {α : Type} (l : List (String × CacheEntry α)) (k : String)
    (e : CacheEntry α) : (mapSet l k e).length ≤ l.length + 1 := by
  induction l with
  | nil => simp [mapSet]
  | cons q rest ih =>
    by_cases h : q.1 = k
    · simp [mapSet, h]
    · simp only [mapSet, h, if_false, List.length_cons]
      omega

theorem keys_mapSet {α : Type} (l : List (String × CacheEntry α)) (k : String)
    (e : CacheEntry α) :
    (mapSet l k e).map Prod.fst =
      if k ∈ l.map Prod.fst then l.map Prod.fst else l.map Prod.fst ++ [k] := by
  induction l with
  | nil => simp [mapSet]
  | cons q rest ih =>
    by_cases h : q.1 = k
    · simp [mapSet, h]
    · have hne : ¬ k = q.1 := fun hk => h hk.symm
      simp only [mapSet, h, if_false, List.map_cons, List.mem_cons, hne, false_or, ih]
      by_cases hmem : k ∈ rest.map Prod.fst <;> simp [hmem]

theorem nodupKeys_mapSet {α : Type} {l : List (String × CacheEntry α)} (k : String)
    (e : CacheEntry α) (h : nodupKeys l) : nodupKeys (mapSet l k e) := by
  unfold nodupKeys at *
  rw [keys_mapSet]
  by_cases hmem : k ∈ l.map Prod.fst
  · simpa [hmem] using h
  · simpa [hmem, List.nodup_append] using h

theorem lookupKV_eq_none_iff {α : Type} (l : List (String × CacheEntry α)) (k : String) :
    lookupKV l k = none ↔ k ∉ l.map Prod.fst := by
  induction l with
  | nil => simp [lookupKV]
  | cons q rest ih =>
    by_cases h : q.1 = k
    · simp [lookupKV, h]
    · have hne : ¬ k = q.1 := fun hk => h hk.symm
      simp [lookupKV, h, hne, ih]

theorem lookupKV_mem {α : Type} {l : List (String × CacheEntry α)} {k : String}
    {e : CacheEntry α} (h : lookupKV l k = some e) : (k, e) ∈ l := by
  induction l with
  | nil => simp [lookupKV] at h
  | cons q rest ih =>
    by_cases hq : q.1 = k
    · have : some q.2 = some e := by simpa [lookupKV, hq] using h
      have hqe : q.2 = e := by injection this
      have : q = (k, e) := Prod.ext hq hqe
      rw [this]
      exact List.mem_cons_self _ _
    · right
      exact ih (by simpa [lookupKV, hq] using h)

theorem lookupKV_filter_ne {α : Type} (l : List (String × CacheEntry α)) (k : String) :
    lookupKV (l.filter (fun p => p.1 ≠ k)) k = none := by
  rw [lookupKV_eq_none_iff]
  intro hmem
  rcases List.mem_map.1 hmem with ⟨p, hp, hpk⟩
  have := List.of_mem_filter hp
  simp [hpk] at this

theorem not_mem_filter_ne (l : List String) (k : String) :
    k ∉ l.filter (fun x => x ≠ k) := by
  intro hmem
  have := List.of_mem_filter hmem
  simp at this

/-! ### removeList as one filter -/

theorem removeList_memoryCache (cfg : CacheConfig) {α : Type} :
    ∀ (ks : List String) (s : CacheState α),
      (removeList cfg s ks).memoryCache =
        s.memoryCache.filter (fun p => p.1 ∉ ks) := by
  intro ks
  induction ks with
  | nil => intro s; simp [removeList]
  | cons k ks ih =>
    intro s
    rw [removeList, ih]
    show (s.memoryCache.filter (fun p => p.1 ≠ k)).filter (fun p => p.1 ∉ ks) = _
    rw [List.filter_filter]
    apply List.filter_congr
    intro p _
    by_cases h1 : p.1 = k <;> by_cases h2 : p.1 ∈ ks <;>
      simp [h1, h2]

theorem removeList_cacheIndex (cfg : CacheConfig) {α : Type} :
    ∀ (ks : List String) (s : CacheState α),
      (removeList cfg s ks).cacheIndex = s.cacheIndex.filter (fun x => x ∉ ks) := by
  intro ks
  induction ks with
  | nil => intro s; simp [removeList]
  | cons k ks ih =>
    intro s
    rw [removeList, ih]
    show (s.cacheIndex.filter (fun x => x ≠ k)).filter (fun x => x ∉ ks) = _
    rw [List.filter_filter]
    apply List.filter_congr
    intro x _
    by_cases h1 : x = k <;> by_cases h2 : x ∈ ks <;> simp [h1, h2]

theorem removeList_disk (cfg : CacheConfig) {α : Type} :
    ∀ (ks : List String) (s : CacheState α),
      (removeList cfg s ks).disk =
        if cfg.persistToDisk then s.disk.filter (fun p => p.1 ∉ ks) else s.disk := by
  intro ks
  induction ks with
  | nil => intro s; by_cases h : cfg.persistToDisk <;> simp [removeList, h]
  | cons k ks ih =>
    intro s
    rw [removeList, ih]
    by_cases h : cfg.persistToDisk
    · simp only [remove, h, if_true]
      rw [List.filter_filter]
      apply List.filter_congr
      intro p _
      by_cases h1 : p.1 = k <;> by_cases h2 : p.1 ∈ ks <;> simp [h1, h2]
    · simp [remove, h]

theorem removeList_counters (cfg : CacheConfig) {α : Type} :
    ∀ (ks : List String) (s : CacheState α),
      (removeList cfg s ks).totalHits = s.totalHits ∧
        (removeList cfg s ks).totalMisses = s.totalMisses := by
  intro ks
  induction ks with
  | nil => intro s; exact ⟨rfl, rfl⟩
  | cons k ks ih => intro s; simpa [removeList, remove] using ih (remove cfg s k).1

/-! ### Permutation lemma: filtering out one present key of a nodup map -/

theorem filter_eq_self_of_key_notMem {α : Type} {l : List (String × CacheEntry α)}
    {k : String} (h : k ∉ l.map Prod.fst) :
    l.filter (fun p => p.1 ≠ k) = l := by
  apply List.filter_eq_self.2
  intro p hp
  have : p.1 ∈ l.map Prod.fst := List.mem_map.2 ⟨p, hp, rfl⟩
  have hne : p.1 ≠ k := fun he => h (he ▸ this)
  simpa using hne

theorem perm_cons_filter_ne {α : Type} {l : List (String × CacheEntry α)}
    {k : String} {e : CacheEntry α} (hnodup : nodupKeys l) (hmem : (k, e) ∈ l) :
    List.Perm l ((k, e) :: l.filter (fun p => p.1 ≠ k)) := by
  induction l with
  | nil => simp at hmem
  | cons q rest ih =>
    have hnd : q.1 ∉ rest.map Prod.fst ∧ nodupKeys rest := by
      simpa [nodupKeys] using hnodup
    by_cases hq : q.1 = k
    · have hqe : q = (k, e) := by
        rcases List.mem_cons.1 hmem with h | h
        · exact h.symm
        · exfalso
          have : k ∈ rest.map Prod.fst := List.mem_map.2 ⟨(k, e), h, rfl⟩
          exact hnd.1 (hq ▸ this)
      subst hqe
      have hfeq : rest.filter (fun p => p.1 ≠ k) = rest :=
        filter_eq_self_of_key_notMem (by simpa [hq] using hnd.1)
      have h1 : ((k, e) :: rest).filter (fun p => p.1 ≠ k) = rest := by
        rw [List.filter_cons]
        have hcond : (decide ((k, e).1 ≠ k)) = false := by simp
        rw [hcond]
        simpa using hfeq
      rw [h1]
    · have hmem' : (k, e) ∈ rest := by
        rcases List.mem_cons.1 hmem with h | h
        · exact absurd (congrArg Prod.fst h.symm) hq
        · exact h
      have hperm := ih hnd.2 hmem'
      have step1 : List.Perm (q :: rest)
          (q :: (k, e) :: rest.filter (fun p => p.1 ≠ k)) := hperm.cons q
      have step2 : List.Perm (q :: (k, e) :: rest.filter (fun p => p.1 ≠ k))
          ((k, e) :: q :: rest.filter (fun p => p.1 ≠ k)) := List.Perm.swap _ _ _
      have step3 : (k, e) :: q :: rest.filter (fun p => p.1 ≠ k) =
          (k, e) :: (q :: rest).filter (fun p => p.1 ≠ k) := by
        simp only [List.filter_cons]
        have hq' : ((q.1 ≠ k) : Prop) := hq
        simp [hq']
      exact (step1.trans step2).trans (step3 ▸ List.Perm.refl _)

/-! ### totalBytes lemmas -/

theorem totalBytes_perm {α : Type} {l l' : List (String × CacheEntry α)}
    (h : List.Perm l l') : totalBytes l = totalBytes l' := by
  unfold totalBytes
  exact (h.map (fun p => p.2.size)).sum_eq

theorem totalBytes_cons {α : Type} (p : String × CacheEntry α)
    (l : List (String × CacheEntry α)) :
    totalBytes (p :: l) = p.2.size + totalBytes l := by
  simp [totalBytes]

theorem totalBytes_sublist {α : Type} {l l' : List (String × CacheEntry α)}
    (h : List.Sublist l l') : totalBytes l ≤ totalBytes l' := by
  induction h with
  | slnil => exact le_rfl
  | cons p h ih => rw [totalBytes_cons]; omega
  | cons₂ p h ih => rw [totalBytes_cons, totalBytes_cons]; omega

theorem getStats_totalSize {α : Type} (s : CacheState α) (now : Int) :
    (getStats s now).totalSize = ((totalBytes s.memoryCache : Nat) : ℚ) / (1024 * 1024) := by
  have key : ∀ (l : List (String × CacheEntry α)) (a : Nat),
      l.foldl (fun acc p => acc + p.2.size) a = a + totalBytes l := by
    intro l
    induction l with
    | nil => intro a; simp [totalBytes]
    | cons p rest ih =>
      intro a
      rw [List.foldl_cons, ih, totalBytes_cons]
      omega
  simp [getStats, key]

/-! ### sortByHits -/

theorem sortByHits_perm {α : Type} (l : List (String × CacheEntry α)) :
    List.Perm (sortByHits l) l :=
  List.perm_insertionSort _ l

theorem sortByHits_sorted {α : Type} (l : List (String × CacheEntry α)) :
    List.Sorted (fun a b => a.2.hits ≤ b.2.hits) (sortByHits l) := by
  haveI ht : IsTotal (String × CacheEntry α) (fun a b => a.2.hits ≤ b.2.hits) :=
    ⟨fun a b => Nat.le_total a.2.hits b.2.hits⟩
  haveI htr : IsTrans (String × CacheEntry α) (fun a b => a.2.hits ≤ b.2.hits) :=
    ⟨fun _ _ _ hab hbc => Nat.le_trans hab hbc⟩
  exact List.sorted_insertionSort _ l

/-! ### sizeLoop -/

theorem remove_state_sublists (cfg : CacheConfig) {α : Type} (s : CacheState α) (k : String) :
    List.Sublist (remove cfg s k).1.memoryCache s.memoryCache ∧
      List.Sublist (remove cfg s k).1.disk s.disk ∧
      List.Sublist (remove cfg s k).1.cacheIndex s.cacheIndex := by
  refine ⟨List.filter_sublist _, ?_, List.filter_sublist _⟩
  by_cases h : cfg.persistToDisk <;> simp [remove, h, List.filter_sublist]

theorem sizeLoop_sublists (cfg : CacheConfig) {α : Type} (T target : ℚ) :
    ∀ (l : List (String × CacheEntry α)) (s : CacheState α) (removed : Nat),
      List.Sublist (sizeLoop cfg T target l s removed).memoryCache s.memoryCache ∧
        List.Sublist (sizeLoop cfg T target l s removed).disk s.disk := by
  intro l
  induction l with
  | nil => intro s removed; exact ⟨List.Sublist.refl _, List.Sublist.refl _⟩
  | cons p rest ih =>
    intro s removed
    rw [sizeLoop]
    by_cases h : T - (removed : ℚ) / (1024 * 1024) ≤ target
    · simp only [h, if_true]
      exact ⟨List.Sublist.refl _, List.Sublist.refl _⟩
    · simp only [h, if_false]
      have hrec := ih (remove cfg s p.1).1 (removed + p.2.size)
      have hrem := remove_state_sublists cfg s p.1
      exact ⟨hrec.1.trans hrem.1, hrec.2.trans hrem.2.1⟩

theorem sizeLoop_totalBytes_le (cfg : CacheConfig) {α : Type} (T target : ℚ)
    (htarget : 0 ≤ target) :
    ∀ (l : List (String × CacheEntry α)) (s : CacheState α) (removed : Nat),
      nodupKeys s.memoryCache →
      List.Perm l s.memoryCache →
      ((totalBytes s.memoryCache : Nat) : ℚ) = T * 1048576 - (removed : ℚ) →
      ((totalBytes (sizeLoop cfg T target l s removed).memoryCache : Nat) : ℚ) ≤
        target * 1048576 := by
  intro l
  induction l with
  | nil =>
    intro s removed _ hperm hinv
    have hnil : s.memoryCache = [] := hperm.symm.eq_nil
    rw [sizeLoop, hnil]
    simp only [totalBytes, List.map_nil, List.sum_nil, Nat.cast_zero]
    positivity
  | cons p rest ih =>
    intro s removed hnodup hperm hinv
    obtain ⟨k, e⟩ := p
    rw [sizeLoop]
    by_cases hstop : T - (removed : ℚ) / (1024 * 1024) ≤ target
    · simp only [hstop, if_true]
      rw [hinv]
      have h2 : (T - (removed : ℚ) / (1024 * 1024)) * 1048576 ≤ target * 1048576 := by
        have : (0 : ℚ) ≤ 1048576 := by norm_num
        exact mul_le_mul_of_nonneg_right hstop this
      calc T * 1048576 - (removed : ℚ)
          = (T - (removed : ℚ) / (1024 * 1024)) * 1048576 := by ring
        _ ≤ target * 1048576 := h2
    · simp only [hstop, if_false]
      have hmem : (k, e) ∈ s.memoryCache :=
        hperm.subset (List.mem_cons_self _ _)
      have hperm2 := perm_cons_filter_ne hnodup hmem
      have hrest : List.Perm rest (s.memoryCache.filter (fun p => p.1 ≠ k)) := by
        have := hperm.trans hperm2
        exact this.cons_inv
      have hmem' : (remove cfg s k).1.memoryCache =
          s.memoryCache.filter (fun p => p.1 ≠ k) := rfl
      apply ih (remove cfg s k).1 (removed + e.size)
      · show nodupKeys ((remove cfg s k).1.memoryCache)
        rw [hmem']
        unfold nodupKeys at *
        exact ((List.filter_sublist _).map Prod.fst).nodup hnodup
      · rw [hmem']
        exact hrest
      · rw [hmem']
        have hbytes : totalBytes s.memoryCache =
            e.size + totalBytes (s.memoryCache.filter (fun p => p.1 ≠ k)) := by
          rw [totalBytes_perm hperm2, totalBytes_cons]
        have : ((totalBytes (s.memoryCache.filter (fun p => p.1 ≠ k)) : Nat) : ℚ) =
            ((totalBytes s.memoryCache : Nat) : ℚ) - (e.size : ℚ) := by
          rw [hbytes]
          push_cast
          ring
        rw [this, hinv]
        push_cast
        ring

/-! ### Counting lemmas for the count pass -/

theorem floor_mul_four_fifths (m : Nat) :
    Nat.floor ((m : ℚ) * (4 / 5)) = 4 * m / 5 := by
  have h : (m : ℚ) * (4 / 5) = ((4 * m : Nat) : ℚ) / ((5 : Nat) : ℚ) := by
    push_cast
    ring
  rw [h, Nat.floor_div_nat, Nat.floor_natCast]

theorem length_filter_key_of_mem {α : Type} {l : List (String × CacheEntry α)} {k : String}
    (hnodup : nodupKeys l) (hk : k ∈ l.map Prod.fst) :
    (l.filter (fun p => p.1 ≠ k)).length = l.length - 1 := by
  rcases List.mem_map.1 hk with ⟨p, hp, hpk⟩
  obtain ⟨k', e⟩ := p
  have hk' : k' = k := hpk
  subst hk'
  have hperm := perm_cons_filter_ne hnodup hp
  have hlen := hperm.length_eq
  simp only [List.length_cons] at hlen
  omega

theorem removeList_length (cfg : CacheConfig) {α : Type} :
    ∀ (ks : List String) (s : CacheState α),
      nodupKeys s.memoryCache → ks.Nodup →
      (∀ k ∈ ks, k ∈ s.memoryCache.map Prod.fst) →
      (removeList cfg s ks).memoryCache.length = s.memoryCache.length - ks.length := by
  intro ks
  induction ks with
  | nil => intro s _ _ _; simp [removeList]
  | cons k ks ih =>
    intro s hnodup hksnd hsub
    rw [removeList]
    have hkmem : k ∈ s.memoryCache.map Prod.fst := hsub k (List.mem_cons_self _ _)
    have hlen1 : (remove cfg s k).1.memoryCache.length = s.memoryCache.length - 1 :=
      length_filter_key_of_mem hnodup hkmem
    have hnodup' : nodupKeys (remove cfg s k).1.memoryCache := by
      unfold nodupKeys at *
      exact ((List.filter_sublist _).map Prod.fst).nodup hnodup
    have hksnd' : ks.Nodup := (List.nodup_cons.1 hksnd).2
    have hknotin : k ∉ ks := (List.nodup_cons.1 hksnd).1
    have hsub' : ∀ k' ∈ ks, k' ∈ (remove cfg s k).1.memoryCache.map Prod.fst := by
      intro k' hk'
      have hk'mem : k' ∈ s.memoryCache.map Prod.fst := hsub k' (List.mem_cons_of_mem _ hk')
      rcases List.mem_map.1 hk'mem with ⟨p, hp, hpk⟩
      have hne : p.1 ≠ k := by
        rw [hpk]
        intro he
        exact hknotin (he ▸ hk')
      apply List.mem_map.2
      refine ⟨p, ?_, hpk⟩
      exact List.mem_filter.2 ⟨hp, by simpa using hne⟩
    rw [ih (remove cfg s k).1 hnodup' hksnd' hsub', hlen1]
    have hpos : 1 ≤ s.memoryCache.length := by
      rcases List.mem_map.1 hkmem with ⟨p, hp, _⟩
      have := List.length_pos.2 (List.ne_nil_of_mem hp)
      omega
    simp only [List.length_cons]
    omega

theorem sortedKeys_nodup {α : Type} {l : List (String × CacheEntry α)}
    (h : nodupKeys l) (n : Nat) :
    (((sortByHits l).take n).map Prod.fst).Nodup := by
  have hperm : List.Perm (sortByHits l) l := sortByHits_perm l
  have hnodup : nodupKeys (sortByHits l) := by
    unfold nodupKeys at *
    exact (hperm.map Prod.fst).nodup_iff.2 h
  have hsub : List.Sublist ((sortByHits l).take n) (sortByHits l) := List.take_sublist _ _
  exact (hsub.map Prod.fst).nodup hnodup

theorem sortedKeys_mem {α : Type} {l : List (String × CacheEntry α)} {n : Nat} {k : String}
    (hk : k ∈ ((sortByHits l).take n).map Prod.fst) : k ∈ l.map Prod.fst := by
  rcases List.mem_map.1 hk with ⟨p, hp, hpk⟩
  have h1 : p ∈ sortByHits l := (List.take_sublist _ _).subset hp
  have h2 : p ∈ l := (sortByHits_perm l).subset h1
  exact List.mem_map.2 ⟨p, h2, hpk⟩

/-! ### optimize lemmas -/

theorem optimize_countPass_length (cfg : CacheConfig) {α : Type} (s1 : CacheState α)
    (hnodup : nodupKeys s1.memoryCache) (hc : cfg.maxEntries < s1.memoryCache.length) :
    (removeList cfg s1
        (((sortByHits s1.memoryCache).take
            (s1.memoryCache.length - Nat.floor ((cfg.maxEntries : ℚ) * (4 / 5)))).map
          Prod.fst)).memoryCache.length = 4 * cfg.maxEntries / 5 := by
  set n := s1.memoryCache.length with hn
  set fl := Nat.floor ((cfg.maxEntries : ℚ) * (4 / 5)) with hfl
  have hfl' : fl = 4 * cfg.maxEntries / 5 := floor_mul_four_fifths cfg.maxEntries
  have hfle : fl ≤ cfg.maxEntries := by
    rw [hfl']
    omega
  have hlt : fl < n := lt_of_le_of_lt hfle hc
  have hlensort : (sortByHits s1.memoryCache).length = n := (sortByHits_perm _).length_eq
  have hkslen : (((sortByHits s1.memoryCache).take (n - fl)).map Prod.fst).length = n - fl := by
    rw [List.length_map, List.length_take, hlensort]
    omega
  rw [removeList_length cfg _ s1 hnodup (sortedKeys_nodup hnodup _)
      (fun k hk => sortedKeys_mem hk), hkslen, hfl']
  omega

/-- The count pass of `optimize`, split out so proofs can factor
`optimize` as size pass then count pass (`optimize_eq`). -/
def countPass (cfg : CacheConfig) {α : Type} (s1 : CacheState α) : CacheState α :=
  if cfg.maxEntries < s1.memoryCache.length then
    removeList cfg s1
      (((sortByHits s1.memoryCache).take
          (s1.memoryCache.length - Nat.floor ((cfg.maxEntries : ℚ) * (4 / 5)))).map
        Prod.fst)
  else s1

/-- The size pass of `optimize`, split out for the same reason. -/
def sizePass (cfg : CacheConfig) {α : Type} (now : Int) (s : CacheState α) : CacheState α :=
  if (cfg.maxSize : ℚ) < (getStats s now).totalSize then
    sizeLoop cfg (getStats s now).totalSize ((cfg.maxSize : ℚ) * (4 / 5))
      (sortByHits s.memoryCache) s 0
  else s

theorem optimize_eq (cfg : CacheConfig) {α : Type} (now : Int) (s : CacheState α) :
    optimize cfg now s = countPass cfg (sizePass cfg now s) := rfl

theorem sizePass_sublists (cfg : CacheConfig) {α : Type} (now : Int) (s : CacheState α) :
    List.Sublist (sizePass cfg now s).memoryCache s.memoryCache ∧
      List.Sublist (sizePass cfg now s).disk s.disk := by
  unfold sizePass
  by_cases h : (cfg.maxSize : ℚ) < (getStats s now).totalSize
  · simp only [h, if_true]
    exact ⟨(sizeLoop_sublists cfg _ _ _ s 0).1, (sizeLoop_sublists cfg _ _ _ s 0).2⟩
  · simp only [h, if_false]
    exact ⟨List.Sublist.refl _, List.Sublist.refl _⟩

theorem sizePass_nodup (cfg : CacheConfig) {α : Type} (now : Int) (s : CacheState α)
    (hnodup : nodupKeys s.memoryCache) : nodupKeys (sizePass cfg now s).memoryCache := by
  unfold nodupKeys at *
  exact (((sizePass_sublists cfg now s).1).map Prod.fst).nodup hnodup

theorem countPass_length_le (cfg : CacheConfig) {α : Type} (s1 : CacheState α)
    (hnodup : nodupKeys s1.memoryCache) :
    (countPass cfg s1).memoryCache.length ≤ cfg.maxEntries := by
  unfold countPass
  by_cases h : cfg.maxEntries < s1.memoryCache.length
  · simp only [h, if_true]
    rw [optimize_countPass_length cfg s1 hnodup h]
    omega
  · simp only [h, if_false]
    omega

theorem optimize_length_le (cfg : CacheConfig) {α : Type} (now : Int) (s : CacheState α)
    (hnodup : nodupKeys s.memoryCache) :
    (optimize cfg now s).memoryCache.length ≤ cfg.maxEntries := by
  rw [optimize_eq]
  exact countPass_length_le cfg (sizePass cfg now s) (sizePass_nodup cfg now s hnodup)

/-! ### Size bound through optimize -/

theorem sizePass_totalBytes_le (cfg : CacheConfig) {α : Type} (now : Int) (s : CacheState α)
    (hnodup : nodupKeys s.memoryCache)
    (hover : (cfg.maxSize : ℚ) < (getStats s now).totalSize) :
    ((totalBytes (sizePass cfg now s).memoryCache : Nat) : ℚ) ≤
      (cfg.maxSize : ℚ) * (4 / 5) * 1048576 := by
  unfold sizePass
  simp only [hover, if_true]
  have htarget : (0 : ℚ) ≤ (cfg.maxSize : ℚ) * (4 / 5) := by positivity
  have hinv : ((totalBytes s.memoryCache : Nat) : ℚ) =
      (getStats s now).totalSize * 1048576 - ((0 : Nat) : ℚ) := by
    rw [getStats_totalSize]
    norm_num
  exact sizeLoop_totalBytes_le cfg _ _ htarget _ s 0 hnodup (sortByHits_perm _) hinv

theorem countPass_mem_sublist (cfg : CacheConfig) {α : Type} (s1 : CacheState α) :
    List.Sublist (countPass cfg s1).memoryCache s1.memoryCache := by
  unfold countPass
  by_cases h : cfg.maxEntries < s1.memoryCache.length
  · simp only [h, if_true]
    rw [removeList_memoryCache]
    exact List.filter_sublist _
  · simp only [h, if_false]
    exact List.Sublist.refl _

theorem optimize_totalBytes_le (cfg : CacheConfig) {α : Type} (now : Int) (s : CacheState α)
    (hnodup : nodupKeys s.memoryCache)
    (hover : (cfg.maxSize : ℚ) < (getStats s now).totalSize) :
    ((totalBytes (optimize cfg now s).memoryCache : Nat) : ℚ) ≤
      (cfg.maxSize : ℚ) * (4 / 5) * 1048576 := by
  rw [optimize_eq]
  have h1 := totalBytes_sublist (countPass_mem_sublist cfg (sizePass cfg now s))
  have h2 := sizePass_totalBytes_le cfg now s hnodup hover
  calc ((totalBytes (countPass cfg (sizePass cfg now s)).memoryCache : Nat) : ℚ)
      ≤ ((totalBytes (sizePass cfg now s).memoryCache : Nat) : ℚ) := by exact_mod_cast h1
    _ ≤ (cfg.maxSize : ℚ) * (4 / 5) * 1048576 := h2

/-! ### byType characterization and clear(type) -/

theorem byType_foldl {α : Type} :
    ∀ (l : List (String × CacheEntry α)) (acc : CacheType → Nat × Nat) (t : CacheType),
      (l.foldl
          (fun acc p => fun u =>
            if u = p.2.type then ((acc u).1 + 1, (acc u).2 + p.2.size) else acc u)
          acc) t =
        ((acc t).1 + (l.filter (fun p => p.2.type = t)).length,
          (acc t).2 + totalBytes (l.filter (fun p => p.2.type = t))) := by
  intro l
  induction l with
  | nil => intro acc t; simp [totalBytes]
  | cons p rest ih =>
    intro acc t
    rw [List.foldl_cons, ih]
    by_cases ht : t = p.2.type
    · have hfil : (p :: rest).filter (fun q => q.2.type = t) =
          p :: rest.filter (fun q => q.2.type = t) := by
        simp [List.filter_cons, ht.symm]
      rw [if_pos ht, hfil, Prod.ext_iff]
      constructor
      · simp only [List.length_cons]
        omega
      · simp only [totalBytes_cons]
        omega
    · have hne : ¬ p.2.type = t := fun he => ht he.symm
      have hfil : (p :: rest).filter (fun q => q.2.type = t) =
          rest.filter (fun q => q.2.type = t) := by
        simp [List.filter_cons, hne]
      rw [if_neg ht, hfil]

theorem getStats_byType {α : Type} (s : CacheState α) (now : Int) (t : CacheType) :
    (getStats s now).byType t =
      ((s.memoryCache.filter (fun p => p.2.type = t)).length,
        totalBytes (s.memoryCache.filter (fun p => p.2.type = t))) := by
  show (s.memoryCache.foldl
      (fun acc p => fun u =>
        if u = p.2.type then ((acc u).1 + 1, (acc u).2 + p.2.size) else acc u)
      (fun _ => (0, 0))) t = _
  rw [byType_foldl]
  simp

theorem eq_of_mem_of_nodupKeys {α : Type} {l : List (String × CacheEntry α)}
    (hnodup : nodupKeys l) {p q : String × CacheEntry α} (hp : p ∈ l) (hq : q ∈ l)
    (hk : p.1 = q.1) : p = q := by
  induction l with
  | nil => simp at hp
  | cons r rest ih =>
    have hnd : r.1 ∉ rest.map Prod.fst ∧ nodupKeys rest := by
      simpa [nodupKeys] using hnodup
    rcases List.mem_cons.1 hp with hp1 | hp1 <;> rcases List.mem_cons.1 hq with hq1 | hq1
    · rw [hp1, hq1]
    · exfalso
      apply hnd.1
      rw [← hp1, hk]
      exact List.mem_map.2 ⟨q, hq1, rfl⟩
    · exfalso
      apply hnd.1
      rw [← hq1, ← hk]
      exact List.mem_map.2 ⟨p, hp1, rfl⟩
    · exact ih hnd.2 hp1 hq1

theorem clear_type_memoryCache (cfg : CacheConfig) {α : Type} (s : CacheState α)
    (t : CacheType) (hnodup : nodupKeys s.memoryCache) :
    (clear cfg s (some t)).memoryCache =
      s.memoryCache.filter (fun p => p.2.type ≠ t) := by
  have h1 : (clear cfg s (some t)).memoryCache =
      s.memoryCache.filter
        (fun p => p.1 ∉ (s.memoryCache.filter (fun q => q.2.type = t)).map Prod.fst) := by
    unfold clear
    exact removeList_memoryCache cfg _ s
  rw [h1]
  apply List.filter_congr
  intro p hp
  rw [decide_eq_decide]
  constructor
  · intro hnot hty
    apply hnot
    exact List.mem_map.2 ⟨p, List.mem_filter.2 ⟨hp, by simpa using hty⟩, rfl⟩
  · intro hty hmem
    rcases List.mem_map.1 hmem with ⟨q, hq, hqk⟩
    have hqmem : q ∈ s.memoryCache := List.mem_filter.1 hq |>.1
    have hqt : q.2.type = t := by simpa using (List.mem_filter.1 hq).2
    have : q = p := eq_of_mem_of_nodupKeys hnodup hqmem hp hqk
    exact hty (this ▸ hqt)

/-! ### Preservation of the expiry invariant -/

theorem entriesWF_sublist {α : Type} {l l' : List (String × CacheEntry α)}
    (h : List.Sublist l l') (hwf : entriesWF l') : entriesWF l :=
  fun p hp => hwf p (h.subset hp)

theorem CACHE_TTL_BY_TYPE_pos (t : CacheType) : 0 < CACHE_TTL_BY_TYPE t := by
  cases t <;> decide

theorem ttlOf_nonneg {c? : Option Int} (hc : ∀ c, c? = some c → 0 ≤ c) (t : CacheType)
    (d : Int) : 0 ≤ ttlOf c? t d := by
  have hpos := CACHE_TTL_BY_TYPE_pos t
  have hne : CACHE_TTL_BY_TYPE t ≠ 0 := ne_of_gt hpos
  cases c? with
  | none =>
    rw [ttlOf, if_neg hne]
    omega
  | some c =>
    by_cases h0 : c = 0
    · rw [ttlOf, if_pos h0, if_neg hne]
      omega
    · rw [ttlOf, if_neg h0]
      exact hc c rfl

theorem stateWF_remove (cfg : CacheConfig) {α : Type} {s : CacheState α} (h : stateWF s)
    (k : String) : stateWF (remove cfg s k).1 := by
  have hs := remove_state_sublists cfg s k
  exact ⟨entriesWF_sublist hs.1 h.1, entriesWF_sublist hs.2.1 h.2⟩

theorem stateWF_removeList (cfg : CacheConfig) {α : Type} :
    ∀ (ks : List String) (s : CacheState α), stateWF s → stateWF (removeList cfg s ks) := by
  intro ks
  induction ks with
  | nil => intro s h; exact h
  | cons k ks ih => intro s h; exact ih _ (stateWF_remove cfg h k)

theorem stateWF_sizeLoop (cfg : CacheConfig) {α : Type} (T target : ℚ) :
    ∀ (l : List (String × CacheEntry α)) (s : CacheState α) (removed : Nat),
      stateWF s → stateWF (sizeLoop cfg T target l s removed) := by
  intro l
  induction l with
  | nil => intro s removed h; exact h
  | cons p rest ih =>
    intro s removed h
    rw [sizeLoop]
    by_cases hstop : T - (removed : ℚ) / (1024 * 1024) ≤ target
    · simpa [hstop] using h
    · simp only [hstop, if_false]
      exact ih _ _ (stateWF_remove cfg h p.1)

theorem stateWF_optimize (cfg : CacheConfig) {α : Type} (now : Int) {s : CacheState α}
    (h : stateWF s) : stateWF (optimize cfg now s) := by
  rw [optimize_eq]
  have h1 : stateWF (sizePass cfg now s) := by
    unfold sizePass
    by_cases hc : (cfg.maxSize : ℚ) < (getStats s now).totalSize
    · simp only [hc, if_true]
      exact stateWF_sizeLoop cfg _ _ _ s 0 h
    · simpa [hc] using h
  unfold countPass
  by_cases hc : cfg.maxEntries < (sizePass cfg now s).memoryCache.length
  · simp only [hc, if_true]
    exact stateWF_removeList cfg _ _ h1
  · simpa [hc] using h1

theorem entriesWF_mapSet {α : Type} {l : List (String × CacheEntry α)} (h : entriesWF l)
    {e : CacheEntry α} (he : e.timestamp ≤ e.expiresAt) (k : String) :
    entriesWF (mapSet l k e) := by
  intro p hp
  rcases mem_mapSet hp with h1 | h1
  · rw [h1]
    exact he
  · exact h p h1

theorem stateWF_set (cfg : CacheConfig) {α : Type} (sz : α → Nat) {s : CacheState α}
    (h : stateWF s) (now : Int) (key : String) (data : α) (type : CacheType)
    {customTTL : Option Int} (hc : ∀ c, customTTL = some c → 0 ≤ c) :
    stateWF (set cfg sz s now key data type customTTL).1 := by
  by_cases hen : cfg.enabled = false
  · simpa [set, hen] using h
  · have httl : 0 ≤ ttlOf customTTL type cfg.defaultTTL := ttlOf_nonneg hc type cfg.defaultTTL
    have hewf : (⟨data, now, sz data, type, now + ttlOf customTTL type cfg.defaultTTL, 0⟩ :
        CacheEntry α).timestamp ≤
        (⟨data, now, sz data, type, now + ttlOf customTTL type cfg.defaultTTL, 0⟩ :
          CacheEntry α).expiresAt := by
      simp only
      omega
    have h1 : stateWF
        { s with
            memoryCache := mapSet s.memoryCache key
              ⟨data, now, sz data, type, now + ttlOf customTTL type cfg.defaultTTL, 0⟩,
            cacheIndex := setAdd s.cacheIndex key,
            disk := if cfg.persistToDisk then
                mapSet s.disk key
                  ⟨data, now, sz data, type, now + ttlOf customTTL type cfg.defaultTTL, 0⟩
              else s.disk } := by
      constructor
      · exact entriesWF_mapSet h.1 hewf key
      · by_cases hp : cfg.persistToDisk
        · simp only [hp, if_true]
          exact entriesWF_mapSet h.2 hewf key
        · simpa [hp] using h.2
    rw [set, if_neg hen]
    by_cases hover :
        (mapSet s.memoryCache key
            ⟨data, now, sz data, type, now + ttlOf customTTL type cfg.defaultTTL, 0⟩).length >
          cfg.maxEntries
    · simp only [hover, if_true]
      exact stateWF_optimize cfg now h1
    · simp only [hover, if_false]
      exact h1

theorem stateWF_get (cfg : CacheConfig) {α : Type} {s : CacheState α} (h : stateWF s)
    (now : Int) (key : String) (type? : Option CacheType) :
    stateWF (get cfg s now key type?).1 := by
  unfold get
  split
  · exact h
  · split
    next entry heq =>
      split
      · exact ⟨(stateWF_remove cfg h key).1, (stateWF_remove cfg h key).2⟩
      · have hewf : ({ entry with hits := entry.hits + 1 } : CacheEntry α).timestamp ≤
            ({ entry with hits := entry.hits + 1 } : CacheEntry α).expiresAt :=
          h.1 (key, entry) (lookupKV_mem heq)
        exact ⟨entriesWF_mapSet h.1 hewf key, h.2⟩
    next heq =>
      split
      · split
        next entry heq2 =>
          split
          · exact ⟨(stateWF_remove cfg h key).1, (stateWF_remove cfg h key).2⟩
          · have hewf : ({ entry with hits := entry.hits + 1 } : CacheEntry α).timestamp ≤
                ({ entry with hits := entry.hits + 1 } : CacheEntry α).expiresAt :=
              h.2 (key, entry) (lookupKV_mem heq2)
            exact ⟨entriesWF_mapSet h.1 hewf key, h.2⟩
        next heq2 => exact ⟨h.1, h.2⟩
      · exact ⟨h.1, h.2⟩

theorem stateWF_clear (cfg : CacheConfig) {α : Type} {s : CacheState α} (h : stateWF s)
    (type? : Option CacheType) : stateWF (clear cfg s type?) := by
  cases type? with
  | some t => exact stateWF_removeList cfg _ s h
  | none =>
    constructor
    · intro p hp
      simp [clear] at hp
    · intro p hp
      by_cases hd : cfg.persistToDisk
      · simp [clear, hd] at hp
      · exact h.2 p (by simpa [clear, hd] using hp)

theorem stateWF_prune (cfg : CacheConfig) {α : Type} {s : CacheState α} (h : stateWF s)
    (now : Int) : stateWF (prune cfg s now).1 :=
  stateWF_removeList cfg _ s h

/-! ### set without triggering the capacity pass -/

theorem set_lookup_of_no_evict (cfg : CacheConfig) {α : Type} (sz : α → Nat)
    (s : CacheState α) (now : Int) (key : String) (data : α) (type : CacheType)
    (c? : Option Int) (hen : cfg.enabled = true)
    (hlen : s.memoryCache.length < cfg.maxEntries) :
    lookupKV (set cfg sz s now key data type c?).1.memoryCache key =
      some ⟨data, now, sz data, type, now + ttlOf c? type cfg.defaultTTL, 0⟩ := by
  have hne : ¬ (cfg.enabled = false) := by simp [hen]
  simp only [set, if_neg hne]
  have hcond : ¬ ((mapSet s.memoryCache key
      (⟨data, now, sz data, type, now + ttlOf c? type cfg.defaultTTL, 0⟩ :
        CacheEntry α)).length > cfg.maxEntries) := by
    have := length_mapSet_le s.memoryCache key
      (⟨data, now, sz data, type, now + ttlOf c? type cfg.defaultTTL, 0⟩ : CacheEntry α)
    omega
  rw [if_neg hcond]
  exact lookupKV_mapSet_self _ _ _

/-! ### Claim C1 -/

def cfgC1 : CacheConfig :=
  { enabled := true, maxSize := 200, maxEntries := 1000, defaultTTL := 1000,
    persistToDisk := true, useCompression := false }

def entC1 : CacheEntry Nat :=
  { data := 7, timestamp := 0, size := 3, type := CacheType.html, expiresAt := 5, hits := 0 }

def stC1 : CacheState Nat :=
  { memoryCache := [("k", entC1)], cacheIndex := ["k"], disk := [("k", entC1)],
    totalHits := 0, totalMisses := 0 }

/-- C1: when the cache is enabled and an entry reachable by `get` (in the
memory map, or — under `persistToDisk` — in the durable store via the key
index) is expired (`now > expiresAt`), `get` returns absent, increments
the global miss counter, and removes the entry from the memory map, from
the key index and (when persisting) from the durable store, without any
`prune` sweep. -/
theorem get_expired_removes (cfg : CacheConfig) {α : Type} (s : CacheState α) (now : Int)
    (key : String) (type? : Option CacheType) (entry : CacheEntry α)
    (hen : cfg.enabled = true)
    (hfound : lookupKV s.memoryCache key = some entry ∨
      (lookupKV s.memoryCache key = none ∧ cfg.persistToDisk = true ∧
        key ∈ s.cacheIndex ∧ lookupKV s.disk key = some entry))
    (hexp : now > entry.expiresAt) :
    (get cfg s now key type?).2 = none ∧
      (get cfg s now key type?).1.totalMisses = s.totalMisses + 1 ∧
      lookupKV (get cfg s now key type?).1.memoryCache key = none ∧
      key ∉ (get cfg s now key type?).1.cacheIndex ∧
      (cfg.persistToDisk = true →
        lookupKV (get cfg s now key type?).1.disk key = none) := by
  have hne : ¬ (cfg.enabled = false) := by simp [hen]
  rcases hfound with hmem | ⟨hmem, hpd, hidx, hdisk⟩
  · rw [get, if_neg hne]
    simp only [hmem]
    rw [if_pos hexp]
    refine ⟨rfl, rfl, lookupKV_filter_ne _ _, not_mem_filter_ne _ _, ?_⟩
    intro hpd
    have hdiskeq : (remove cfg s key).1.disk = s.disk.filter (fun p => p.1 ≠ key) := by
      simp [remove, hpd]
    show lookupKV ((remove cfg s key).1.disk) key = none
    rw [hdiskeq]
    exact lookupKV_filter_ne _ _
  · rw [get, if_neg hne]
    simp only [hmem]
    rw [if_pos ⟨hpd, hidx⟩]
    simp only [hdisk]
    rw [if_pos hexp]
    refine ⟨rfl, rfl, lookupKV_filter_ne _ _, not_mem_filter_ne _ _, ?_⟩
    intro hpd'
    have hdiskeq : (remove cfg s key).1.disk = s.disk.filter (fun p => p.1 ≠ key) := by
      simp [remove, hpd']
    show lookupKV ((remove cfg s key).1.disk) key = none
    rw [hdiskeq]
    exact lookupKV_filter_ne _ _

/-- Witness for C1 at a concrete expired in-memory entry. -/
theorem get_expired_removes_witness :
    (get cfgC1 stC1 10 "k" none).2 = none ∧
      (get cfgC1 stC1 10 "k" none).1.totalMisses = stC1.totalMisses + 1 ∧
      lookupKV (get cfgC1 stC1 10 "k" none).1.memoryCache "k" = none ∧
      "k" ∉ (get cfgC1 stC1 10 "k" none).1.cacheIndex ∧
      lookupKV (get cfgC1 stC1 10 "k" none).1.disk "k" = none :=
  (fun h => ⟨h.1, h.2.1, h.2.2.1, h.2.2.2.1, h.2.2.2.2 rfl⟩)
    (get_expired_removes cfgC1 stC1 10 "k" none entC1 rfl (Or.inl rfl) (by decide))

/-! ### Claim C2 -/

def cfgC2 : CacheConfig :=
  { enabled := true, maxSize := 200, maxEntries := 1000, defaultTTL := 1000,
    persistToDisk := false, useCompression := false }

def stC2 : CacheState Nat :=
  { memoryCache := [], cacheIndex := [], disk := [], totalHits := 0, totalMisses := 0 }

/-- C2 counterexample: `set(key, data, "html", customTTL = 0)` stores an
entry with `expiresAt - timestamp = 900000` (the `html` type default),
not `0`: the `customTTL || …` chain drops a zero `customTTL`. -/
theorem set_customTTL_zero_cex :
    (lookupKV (set cfgC2 (fun _ => 0) stC2 1000 "k" 0 CacheType.html (some 0)).1.memoryCache
          "k").map (fun e => e.expiresAt - e.timestamp) = some 900000 ∧
      (900000 : Int) ≠ 0 := by
  decide

/-- C2 amended: a NONZERO caller-supplied `customTTL` always takes
precedence over the per-type table and `defaultTTL`: the stored entry
satisfies `expiresAt - timestamp = customTTL` (here stated when the
write does not trigger the eviction pass, so the entry is still
present); `customTTL = 0` instead falls back to the type default. -/
theorem set_customTTL_nonzero_precedence (cfg : CacheConfig) {α : Type} (sz : α → Nat)
    (s : CacheState α) (now : Int) (key : String) (data : α) (type : CacheType) (c : Int)
    (hen : cfg.enabled = true) (hlen : s.memoryCache.length < cfg.maxEntries)
    (hc : c ≠ 0) :
    (lookupKV (set cfg sz s now key data type (some c)).1.memoryCache key).map
        (fun e => e.expiresAt - e.timestamp) = some c := by
  rw [set_lookup_of_no_evict cfg sz s now key data type (some c) hen hlen]
  have httl : ttlOf (some c) type cfg.defaultTTL = c := by
    simp [ttlOf, hc]
  simp [httl]

/-- Witness for amended C2: `set(key, data, "html", 5000)` yields
`expiresAt - timestamp = 5000`. -/
theorem set_customTTL_nonzero_precedence_witness :
    (lookupKV (set cfgC2 (fun _ => 0) stC2 1000 "k" (0 : Nat) CacheType.html
          (some 5000)).1.memoryCache "k").map (fun e => e.expiresAt - e.timestamp) =
      some 5000 :=
  set_customTTL_nonzero_precedence cfgC2 (fun _ => 0) stC2 1000 "k" 0 CacheType.html 5000
    rfl (by decide) (by decide)

/-! ### Claim C7 -/

def cfgC7 : CacheConfig :=
  { enabled := true, maxSize := 200, maxEntries := 1000, defaultTTL := 1000,
    persistToDisk := true, useCompression := false }

def entC7 : CacheEntry Nat :=
  { data := 1, timestamp := 0, size := 0, type := CacheType.html, expiresAt := 5, hits := 0 }

def stC7 : CacheState Nat :=
  { memoryCache := [("k", entC7)], cacheIndex := ["k"], disk := [("k", entC7)],
    totalHits := 0, totalMisses := 0 }

/-- C7: `has` is a pure presence check against the memory map or the key
index — it takes no clock and performs no expiry validation — and on a
state holding an already-expired entry, `has` answers `true` while `get`
on that same state returns absent. -/
theorem has_ignores_expiry :
    (∀ (α : Type) (s : CacheState α) (key : String),
        has s key = true ↔ (key ∈ s.memoryCache.map Prod.fst ∨ key ∈ s.cacheIndex)) ∧
      (has stC7 "k" = true ∧ (get cfgC7 stC7 10 "k" none).2 = none) := by
  constructor
  · intro α s key
    unfold has
    rw [Bool.or_eq_true, decide_eq_true_iff]
    constructor
    · intro h
      rcases h with h | h
      · left
        rcases Option.isSome_iff_exists.1 h with ⟨e, he⟩
        exact List.mem_map.2 ⟨(key, e), lookupKV_mem he, rfl⟩
      · exact Or.inr h
    · intro h
      rcases h with h | h
      · left
        cases hl : lookupKV s.memoryCache key with
        | some e => rfl
        | none => exact absurd ((lookupKV_eq_none_iff _ _).1 hl) (not_not.2 h)
      · exact Or.inr h
  · exact ⟨by decide, by decide⟩

/-! ### Claim C10 -/

/-- C10: a `set` whose `type` argument is omitted stores the entry with
type `resource` and, with no custom TTL, with
`expiresAt - timestamp = 3600000` (the `resource` table value); a
`setMultiple` entry without a type goes through exactly that defaulted
`set`.  (Stated when the write does not trigger the eviction pass, so
the entry can be read back.) -/
theorem set_omitted_type_is_resource (cfg : CacheConfig) {α : Type} (sz : α → Nat)
    (s : CacheState α) (now : Int) (key : String) (data : α)
    (hen : cfg.enabled = true) (hlen : s.memoryCache.length < cfg.maxEntries) :
    (lookupKV (setOmitType cfg sz s now key data).1.memoryCache key).map
        (fun e => (e.type, e.expiresAt - e.timestamp)) =
      some (CacheType.resource, 3600000) ∧
      setMultiple cfg sz s now [(key, data, none)] =
        ((setOmitType cfg sz s now key data).1, true) := by
  constructor
  · rw [setOmitType,
      set_lookup_of_no_evict cfg sz s now key data CacheType.resource none hen hlen]
    have httl : ttlOf none CacheType.resource cfg.defaultTTL = 3600000 := by
      simp [ttlOf, CACHE_TTL_BY_TYPE]
    simp [httl]
  · rfl

def cfgC10 : CacheConfig :=
  { enabled := true, maxSize := 200, maxEntries := 1000, defaultTTL := 1000,
    persistToDisk := false, useCompression := false }

def stC10 : CacheState Nat :=
  { memoryCache := [], cacheIndex := [], disk := [], totalHits := 0, totalMisses := 0 }

/-- Witness for C10 on a concrete omitted-type write. -/
theorem set_omitted_type_is_resource_witness :
    (lookupKV (setOmitType cfgC10 (fun _ => 0) stC10 50 "k" (9 : Nat)).1.memoryCache "k").map
        (fun e => (e.type, e.expiresAt - e.timestamp)) =
      some (CacheType.resource, 3600000) ∧
      setMultiple cfgC10 (fun _ => 0) stC10 50 [("k", (9 : Nat), none)] =
        ((setOmitType cfgC10 (fun _ => 0) stC10 50 "k" (9 : Nat)).1, true) :=
  set_omitted_type_is_resource cfgC10 (fun _ => 0) stC10 50 "k" 9 rfl (by decide)

/-! ### Claim C3 -/

def cfgC3 : CacheConfig :=
  { enabled := true, maxSize := 10, maxEntries := 1000, defaultTTL := 1000,
    persistToDisk := false, useCompression := false }

def entC3 : CacheEntry Nat :=
  { data := 0, timestamp := 0, size := 12582912, type := CacheType.html,
    expiresAt := 100, hits := 0 }

def stC3 : CacheState Nat :=
  { memoryCache := [("a", entC3)], cacheIndex := ["a"], disk := [],
    totalHits := 0, totalMisses := 0 }

/-- C3: when the aggregate size (MB) of the in-memory entries exceeds
`maxSize`, `optimize()` brings the aggregate size down to at most
`0.8 × maxSize`, and the eviction scan runs over the entries in
ascending order of their `hits` counter (lowest-hit entries first). -/
theorem optimize_size_evicts (cfg : CacheConfig) {α : Type} (now : Int) (s : CacheState α)
    (hnodup : nodupKeys s.memoryCache)
    (hover : (cfg.maxSize : ℚ) < (getStats s now).totalSize) :
    (getStats (optimize cfg now s) now).totalSize ≤ (4 / 5 : ℚ) * (cfg.maxSize : ℚ) ∧
      List.Sorted (fun a b => a.2.hits ≤ b.2.hits) (sortByHits s.memoryCache) := by
  constructor
  · rw [getStats_totalSize]
    have h := optimize_totalBytes_le cfg now s hnodup hover
    rw [div_le_iff₀ (by norm_num : (0 : ℚ) < 1024 * 1024)]
    calc ((totalBytes (optimize cfg now s).memoryCache : Nat) : ℚ)
        ≤ (cfg.maxSize : ℚ) * (4 / 5) * 1048576 := h
      _ = 4 / 5 * (cfg.maxSize : ℚ) * (1024 * 1024) := by ring
  · exact sortByHits_sorted _

/-- Witness for C3: `maxSize = 10` MB against 12 MB of entries. -/
theorem optimize_size_evicts_witness :
    (getStats (optimize cfgC3 0 stC3) 0).totalSize ≤ (4 / 5 : ℚ) * (cfgC3.maxSize : ℚ) ∧
      List.Sorted (fun a b => a.2.hits ≤ b.2.hits) (sortByHits stC3.memoryCache) :=
  optimize_size_evicts cfgC3 0 stC3 (by decide) (by decide)

/-! ### Claim C4 -/

def cfgC4 : CacheConfig :=
  { enabled := true, maxSize := 1, maxEntries := 2, defaultTTL := 1000,
    persistToDisk := false, useCompression := false }

def entC4a : CacheEntry Nat :=
  { data := 0, timestamp := 0, size := 1572864, type := CacheType.html,
    expiresAt := 100, hits := 0 }

def entC4b : CacheEntry Nat :=
  { data := 0, timestamp := 0, size := 0, type := CacheType.html,
    expiresAt := 100, hits := 1 }

def stC4 : CacheState Nat :=
  { memoryCache := [("a", entC4a), ("b1", entC4b), ("b2", entC4b)], cacheIndex := [],
    disk := [], totalHits := 0, totalMisses := 0 }

/-- C4 counterexample: a state with `maxEntries = 2` and 3 entries
(over the count budget) whose size pass alone (the 1.5 MB entry against
`maxSize = 1`) already shrinks the map to 2 entries: the count pass is
then skipped, and `optimize()` leaves 2 entries — more than
`0.8 × maxEntries = 1.6`.  The claim's bound fails for this state. -/
theorem optimize_count_cex :
    cfgC4.maxEntries < stC4.memoryCache.length ∧
      ¬ (((optimize cfgC4 0 stC4).memoryCache.length : ℚ) ≤
          (4 / 5) * (cfgC4.maxEntries : ℚ)) := by
  decide

/-- C4 amended: when the entry count exceeds `maxEntries` AND the
aggregate size is within `maxSize` (so the size pass removes nothing),
`optimize()` reduces the count to exactly `⌊0.8 × maxEntries⌋ ≤
0.8 × maxEntries`, evicting in ascending `hits` order. -/
theorem optimize_count_evicts (cfg : CacheConfig) {α : Type} (now : Int) (s : CacheState α)
    (hnodup : nodupKeys s.memoryCache)
    (hcount : cfg.maxEntries < s.memoryCache.length)
    (hsize : (getStats s now).totalSize ≤ (cfg.maxSize : ℚ)) :
    (optimize cfg now s).memoryCache.length = 4 * cfg.maxEntries / 5 ∧
      ((optimize cfg now s).memoryCache.length : ℚ) ≤ (4 / 5 : ℚ) * (cfg.maxEntries : ℚ) ∧
      List.Sorted (fun a b => a.2.hits ≤ b.2.hits) (sortByHits s.memoryCache) := by
  have hsp : sizePass cfg now s = s := by
    unfold sizePass
    rw [if_neg (not_lt.2 hsize)]
  have h1 : (optimize cfg now s).memoryCache.length = 4 * cfg.maxEntries / 5 := by
    rw [optimize_eq, hsp]
    unfold countPass
    rw [if_pos hcount]
    exact optimize_countPass_length cfg s hnodup hcount
  refine ⟨h1, ?_, sortByHits_sorted _⟩
  rw [h1]
  calc ((4 * cfg.maxEntries / 5 : Nat) : ℚ)
      ≤ ((4 * cfg.maxEntries : Nat) : ℚ) / ((5 : Nat) : ℚ) := Nat.cast_div_le
    _ = (4 / 5 : ℚ) * (cfg.maxEntries : ℚ) := by push_cast; ring

def cfgC4w : CacheConfig :=
  { enabled := true, maxSize := 200, maxEntries := 2, defaultTTL := 1000,
    persistToDisk := false, useCompression := false }

def stC4w : CacheState Nat :=
  { memoryCache := [("a", entC4b), ("b1", entC4b), ("b2", entC4b)], cacheIndex := [],
    disk := [], totalHits := 0, totalMisses := 0 }

/-- Witness for amended C4: 3 small entries against `maxEntries = 2`. -/
theorem optimize_count_evicts_witness :
    (optimize cfgC4w 0 stC4w).memoryCache.length = 4 * cfgC4w.maxEntries / 5 ∧
      ((optimize cfgC4w 0 stC4w).memoryCache.length : ℚ) ≤
        (4 / 5 : ℚ) * (cfgC4w.maxEntries : ℚ) ∧
      List.Sorted (fun a b => a.2.hits ≤ b.2.hits) (sortByHits stC4w.memoryCache) :=
  optimize_count_evicts cfgC4w 0 stC4w (by decide) (by decide) (by decide)

/-! ### Claim C5 -/

def cfgC5 : CacheConfig :=
  { enabled := true, maxSize := 200, maxEntries := 1000, defaultTTL := 1000,
    persistToDisk := false, useCompression := false }

def stC5 : CacheState Nat :=
  { memoryCache := [], cacheIndex := [], disk := [], totalHits := 0, totalMisses := 0 }

/-- C5 counterexample: a negative `customTTL` is truthy for JS `||`, so
`set(key, data, "html", -5)` at `now = 100` stores an entry with
`expiresAt = 95 < 100 = timestamp`, falsifying `expiresAt ≥ timestamp`
for arbitrary caller-supplied TTLs. -/
theorem set_negative_ttl_cex :
    (lookupKV (set cfgC5 (fun _ => 0) stC5 100 "k" 0 CacheType.html
          (some (-5))).1.memoryCache "k").map
        (fun e => decide (e.timestamp ≤ e.expiresAt)) = some false := by
  decide

/-- C5 amended: with a nonnegative (or omitted) `customTTL`, every entry
stored by `set` satisfies `expiresAt ≥ timestamp` (in memory and in the
durable store), and the invariant is preserved by `get`, `remove`,
`clear`, `prune` and `optimize`. -/
theorem expiry_invariant_preserved (cfg : CacheConfig) {α : Type} (sz : α → Nat)
    (s : CacheState α) (now : Int) (key : String) (data : α) (type : CacheType)
    (customTTL : Option Int) (typeClear : Option CacheType) (typeGet : Option CacheType)
    (hwf : stateWF s) (hc : ∀ c, customTTL = some c → 0 ≤ c) :
    stateWF (set cfg sz s now key data type customTTL).1 ∧
      stateWF (get cfg s now key typeGet).1 ∧
      stateWF (remove cfg s key).1 ∧
      stateWF (clear cfg s typeClear) ∧
      stateWF (prune cfg s now).1 ∧
      stateWF (optimize cfg now s) :=
  ⟨stateWF_set cfg sz hwf now key data type hc, stateWF_get cfg hwf now key typeGet,
    stateWF_remove cfg hwf key, stateWF_clear cfg hwf typeClear,
    stateWF_prune cfg hwf now, stateWF_optimize cfg now hwf⟩

/-- Witness for amended C5 at a concrete write. -/
theorem expiry_invariant_preserved_witness :
    stateWF (set cfgC5 (fun _ => 0) stC5 100 "k" 0 CacheType.html (some 7)).1 ∧
      stateWF (get cfgC5 stC5 100 "k" none).1 ∧
      stateWF (remove cfgC5 stC5 "k").1 ∧
      stateWF (clear cfgC5 stC5 (some CacheType.html)) ∧
      stateWF (prune cfgC5 stC5 100).1 ∧
      stateWF (optimize cfgC5 100 stC5) :=
  expiry_invariant_preserved cfgC5 (fun _ => 0) stC5 100 "k" 0 CacheType.html (some 7)
    (some CacheType.html) none (by decide)
    (fun c h => by
      injection h with h
      omega)

/-! ### Claim C6 -/

def cfgC6 : CacheConfig :=
  { enabled := true, maxSize := 100, maxEntries := 1, defaultTTL := 1000,
    persistToDisk := false, useCompression := false }

def entC6 : CacheEntry Nat :=
  { data := 0, timestamp := 0, size := 0, type := CacheType.product,
    expiresAt := 1000000, hits := 0 }

def stC6 : CacheState Nat :=
  { memoryCache := [("b", entC6)], cacheIndex := ["b"], disk := [],
    totalHits := 0, totalMisses := 0 }

/-- C6 counterexample: with `maxEntries = 1` and one existing entry, a
successful `set("a", 7, "product")` pushes the map to 2 entries, so
`set` awaits `optimize()`, whose count pass evicts the lowest-hit
entries — including the just-written `hits = 0` entry — and the
immediately following `get("a", "product")` misses. -/
theorem set_get_roundtrip_cex :
    (set cfgC6 (fun _ => 0) stC6 0 "a" 7 CacheType.product none).2 = true ∧
      (get cfgC6 (set cfgC6 (fun _ => 0) stC6 0 "a" 7 CacheType.product none).1 0 "a"
          (some CacheType.product)).2 = none := by
  decide

/-- C6 amended: when the cache is enabled and the pre-write entry count
is strictly below `maxEntries` (so the write triggers no eviction pass),
a successful `set(key, data, type)` followed by `get(key, type)` before
expiry (with no intervening mutation of the key) returns exactly the
written payload. -/
theorem set_get_roundtrip (cfg : CacheConfig) {α : Type} (sz : α → Nat) (s : CacheState α)
    (now now' : Int) (key : String) (data : α) (type : CacheType)
    (hen : cfg.enabled = true) (hlen : s.memoryCache.length < cfg.maxEntries)
    (hfresh : now' ≤ now + ttlOf none type cfg.defaultTTL) :
    (get cfg (set cfg sz s now key data type none).1 now' key (some type)).2 =
      some data := by
  have hl := set_lookup_of_no_evict cfg sz s now key data type none hen hlen
  rw [get, if_neg (by simp [hen])]
  simp only [hl]
  have hx : ¬ (now' >
      (⟨data, now, sz data, type, now + ttlOf none type cfg.defaultTTL, 0⟩ :
        CacheEntry α).expiresAt) := by
    show ¬ (now' > now + ttlOf none type cfg.defaultTTL)
    omega
  rw [if_neg hx]

/-- Witness for amended C6: immediate read-back of a fresh write. -/
theorem set_get_roundtrip_witness :
    (get cfgC5 (set cfgC5 (fun _ => 0) stC5 0 "k" (41 : Nat) CacheType.product none).1 0 "k"
        (some CacheType.product)).2 = some 41 :=
  set_get_roundtrip cfgC5 (fun _ => 0) stC5 0 0 "k" 41 CacheType.product rfl (by decide)
    (by decide)

/-! ### Claim C9 -/

def cfgC9 : CacheConfig :=
  { enabled := true, maxSize := 200, maxEntries := 2, defaultTTL := 1000,
    persistToDisk := false, useCompression := false }

def stC9a : CacheState Nat :=
  (set cfgC9 (fun _ => 0)
      ({ memoryCache := [], cacheIndex := [], disk := [], totalHits := 0, totalMisses := 0 })
      0 "k1" 0 CacheType.api none).1

def stC9b : CacheState Nat := (set cfgC9 (fun _ => 0) stC9a 0 "k2" 0 CacheType.api none).1

/-- C9 counterexample: `set` AWAITS `optimize()` (the source line is
`await optimize()`), so eviction cannot lag a burst of writes: after a
third write into a `maxEntries = 2` cache whose insertion reaches 3
entries, the resolved `set` already observes the evicted map (1 entry),
never a count above `maxEntries`.  The claimed observable state
(`count > maxEntries` right after `set` resolves) does not occur. -/
theorem set_awaits_optimize_cex :
    stC9b.memoryCache.length = cfgC9.maxEntries ∧
      (set cfgC9 (fun _ => 0) stC9b 0 "k3" 0 CacheType.api none).2 = true ∧
      (set cfgC9 (fun _ => 0) stC9b 0 "k3" 0 CacheType.api none).1.memoryCache.length = 1 ∧
      (set cfgC9 (fun _ => 0) stC9b 0 "k3" 0 CacheType.api none).1.memoryCache.length ≤
        cfgC9.maxEntries := by
  decide

/-- C9 amended: the capacity check in `set` is awaited, not
fire-and-forget: for every enabled write on a well-formed state, the
in-memory entry count observed when `set` resolves is at most
`maxEntries`. -/
theorem set_count_bounded (cfg : CacheConfig) {α : Type} (sz : α → Nat) (s : CacheState α)
    (now : Int) (key : String) (data : α) (type : CacheType) (customTTL : Option Int)
    (hen : cfg.enabled = true) (hnodup : nodupKeys s.memoryCache) :
    (set cfg sz s now key data type customTTL).1.memoryCache.length ≤ cfg.maxEntries := by
  have hne : ¬ (cfg.enabled = false) := by simp [hen]
  simp only [set, if_neg hne]
  by_cases hover : (mapSet s.memoryCache key
      (⟨data, now, sz data, type, now + ttlOf customTTL type cfg.defaultTTL, 0⟩ :
        CacheEntry α)).length > cfg.maxEntries
  · rw [if_pos hover]
    exact optimize_length_le cfg now _
      (nodupKeys_mapSet key
        (⟨data, now, sz data, type, now + ttlOf customTTL type cfg.defaultTTL, 0⟩ :
          CacheEntry α) hnodup)
  · rw [if_neg hover]
    show (mapSet s.memoryCache key
        (⟨data, now, sz data, type, now + ttlOf customTTL type cfg.defaultTTL, 0⟩ :
          CacheEntry α)).length ≤ cfg.maxEntries
    omega

/-- Witness for amended C9 at the burst state of the counterexample. -/
theorem set_count_bounded_witness :
    (set cfgC9 (fun _ => 0) stC9b 5 "k3" (0 : Nat) CacheType.api none).1.memoryCache.length ≤
      cfgC9.maxEntries :=
  set_count_bounded cfgC9 (fun _ => 0) stC9b 5 "k3" 0 CacheType.api none rfl (by decide)

/-! ### Claim C8 -/

def cfgC8 : CacheConfig :=
  { enabled := true, maxSize := 200, maxEntries := 1000, defaultTTL := 1000,
    persistToDisk := true, useCompression := false }

def entC8 : CacheEntry Nat :=
  { data := 7, timestamp := 0, size := 0, type := CacheType.product,
    expiresAt := 1000, hits := 0 }

def stC8 : CacheState Nat :=
  { memoryCache := [], cacheIndex := ["p"], disk := [("p", entC8)],
    totalHits := 0, totalMisses := 0 }

/-- C8 counterexample: `clear("product")` scans only the in-memory map,
so a `product` entry that lives only in the durable store (its key in
the key index, not yet loaded into memory) survives the clear: it is
still on disk, still indexed, and a subsequent `get` still returns it. -/
theorem clear_type_disk_only_cex :
    lookupKV (clear cfgC8 stC8 (some CacheType.product)).disk "p" = some entC8 ∧
      "p" ∈ (clear cfgC8 stC8 (some CacheType.product)).cacheIndex ∧
      (get cfgC8 (clear cfgC8 stC8 (some CacheType.product)) 0 "p"
          (some CacheType.product)).2 = some 7 := by
  decide

/-- C8 amended: on a well-formed state, `clear(type)` removes exactly
the IN-MEMORY entries whose `type` matches — every other in-memory
entry survives unchanged (same key, payload, timestamps, size, hits) —
and `getStats` afterwards reports a zero count for that type and
unchanged per-type figures for every other type.  Entries present only
in the durable store are not covered (see the counterexample). -/
theorem clear_type_scoped (cfg : CacheConfig) {α : Type} (s : CacheState α) (t : CacheType)
    (now : Int) (hnodup : nodupKeys s.memoryCache) :
    (clear cfg s (some t)).memoryCache =
        s.memoryCache.filter (fun p => p.2.type ≠ t) ∧
      ((getStats (clear cfg s (some t)) now).byType t).1 = 0 ∧
      (∀ t', t' ≠ t →
        (getStats (clear cfg s (some t)) now).byType t' = (getStats s now).byType t') := by
  have hmem := clear_type_memoryCache cfg s t hnodup
  refine ⟨hmem, ?_, ?_⟩
  · rw [getStats_byType, hmem]
    show (List.filter (fun p => p.2.type = t)
        (List.filter (fun p => p.2.type ≠ t) s.memoryCache)).length = 0
    rw [List.filter_filter]
    have : ∀ p ∈ s.memoryCache,
        (decide (p.2.type = t) && decide (p.2.type ≠ t)) = false := by
      intro p _
      by_cases h : p.2.type = t <;> simp [h]
    have h0 : List.filter (fun p => decide (p.2.type = t) && decide (p.2.type ≠ t))
        s.memoryCache = List.filter (fun _ => false) s.memoryCache :=
      List.filter_congr this
    rw [h0, List.filter_false]
    rfl
  · intro t' hne
    rw [getStats_byType, getStats_byType, hmem]
    have hfil : List.filter (fun p => p.2.type = t')
        (List.filter (fun p => p.2.type ≠ t) s.memoryCache) =
        List.filter (fun p => p.2.type = t') s.memoryCache := by
      rw [List.filter_filter]
      apply List.filter_congr
      intro p _
      by_cases h : p.2.type = t'
      · simp [h, hne]
      · simp [h]
    rw [hfil]

def entC8p : CacheEntry Nat :=
  { data := 1, timestamp := 0, size := 4, type := CacheType.product,
    expiresAt := 1000, hits := 0 }

def entC8c : CacheEntry Nat :=
  { data := 2, timestamp := 0, size := 6, type := CacheType.category,
    expiresAt := 1000, hits := 0 }

def stC8w : CacheState Nat :=
  { memoryCache := [("p", entC8p), ("c", entC8c)], cacheIndex := ["p", "c"],
    disk := [("p", entC8p), ("c", entC8c)], totalHits := 0, totalMisses := 0 }

/-- Witness for amended C8: clearing `product` in a mixed
`product`/`category` state zeroes the `product` figures and leaves the
`category` figures untouched. -/
theorem clear_type_scoped_witness :
    (clear cfgC8 stC8w (some CacheType.product)).memoryCache =
        stC8w.memoryCache.filter (fun p => p.2.type ≠ CacheType.product) ∧
      ((getStats (clear cfgC8 stC8w (some CacheType.product)) 0).byType
          CacheType.product).1 = 0 ∧
      (getStats (clear cfgC8 stC8w (some CacheType.product)) 0).byType CacheType.category =
        (getStats stC8w 0).byType CacheType.category :=
  ⟨(clear_type_scoped cfgC8 stC8w CacheType.product 0 (by decide)).1,
    (clear_type_scoped cfgC8 stC8w CacheType.product 0 (by decide)).2.1,
    (clear_type_scoped cfgC8 stC8w CacheType.product 0 (by decide)).2.2 CacheType.category
      (by decide)⟩

end CacheManager
